import Mathlib

/-!
Verification of the CREator backend (Constellation-team/back-end) against its
specification.  The deployed server is `server.production.ts` (the Docker image
starts exactly that file); its handlers are embedded below as pure functions.
The persisted state is the orchestrator `.env` file, modelled as an
`Option (List Char)` (`none` = the file is missing or unreadable, `some c` =
its text content).  Handlers become state transformers returning a response
record together with the new file state; the embedding assumes the final
`fs.writeFile` of a successful handler run does not itself fail, which is the
only part of the control flow the claims do not exercise.
-/

namespace CREator

/-! ### JSON values and JavaScript string primitives -/

/-- A JSON-ish value for the `privateKey` field of a request body.
`undef` models an absent field. -/
inductive JValue where
  | undef
  | jnull
  | jstr (s : List Char)
  | jnum (n : Int)
  | jbool (b : Bool)
deriving DecidableEq

/-- JavaScript truthiness of a `JValue` (`!privateKey` in the handler):
`undefined`, `null`, the empty string, `0` and `false` are falsy. -/
def JValue.truthy : JValue → Bool
  | JValue.undef => false
  | JValue.jnull => false
  | JValue.jstr s => !s.isEmpty
  | JValue.jnum n => n != 0
  | JValue.jbool b => b

/-- The character class `[a-fA-F0-9]` of the validation regex. -/
def isHexChar (c : Char) : Bool :=
  (decide ('0' ≤ c) && decide (c ≤ '9')) ||
  (decide ('a' ≤ c) && decide (c ≤ 'f')) ||
  (decide ('A' ≤ c) && decide (c ≤ 'F'))

/-- The ASCII whitespace characters removed by `String.prototype.trim`. -/
def isJsWs (c : Char) : Bool :=
  c == ' ' || c == '\t' || c == '\n' || c == '\r' || c == '\x0b' || c == '\x0c'

/-- `String.prototype.trim`: drop whitespace from both ends. -/
def trimList (l : List Char) : List Char :=
  ((l.dropWhile isJsWs).reverse.dropWhile isJsWs).reverse

/-- `privateKey.replace(/^0x/, '')`: remove one literal `0x` at the very
start of the string, if present. -/
def strip0x : List Char → List Char
  | '0' :: 'x' :: rest => rest
  | l => l

/-- `privateKey.replace(/^0x/, '').trim()` from the set-env-config handler. -/
def cleanKey (l : List Char) : List Char := trimList (strip0x l)

/-- `/^[a-fA-F0-9]{64}$/.test(k)`: exactly 64 hexadecimal characters. -/
def isHex64 (l : List Char) : Bool := (l.length == 64) && l.all isHexChar

/-- A character matched by `.` in a JavaScript regex: anything that is not a
line terminator. -/
def isDotChar (c : Char) : Bool :=
  !(c == '\n' || c == '\r' || c == '\u2028' || c == '\u2029')

/-- `text.includes(pat)`: `pat` occurs contiguously inside `text`. -/
def listContains : List Char → List Char → Bool
  | t, pat =>
    match t with
    | [] => pat.isEmpty
    | c :: rest => pat.isPrefixOf (c :: rest) || listContains rest pat

/-- Split a character list at every occurrence of the delimiter `d`
(the pieces do not contain `d`; `n` delimiters give `n+1` pieces). -/
def splitOnChar (d : Char) : List Char → List (List Char)
  | [] => [[]]
  | c :: rest =>
    let r := splitOnChar d rest
    if c = d then [] :: r
    else
      match r with
      | s :: tail => (c :: s) :: tail
      | [] => [[c]]

/-! ### The `.env` status read (GET /api/get-env-config) -/

/-- The literal searched by `envContent.match(/CRE_ETH_PRIVATE_KEY=(.+)/)`. -/
def keyLit : List Char := "CRE_ETH_PRIVATE_KEY=".toList

/-- First match of the regex `CRE_ETH_PRIVATE_KEY=(.+)` in the file content:
scan left to right for the literal followed by at least one non-line-terminator
character, and capture the maximal run of such characters after the `=`. -/
def findKeyMatch : List Char → Option (List Char)
  | [] => none
  | c :: rest =>
    if keyLit.isPrefixOf (c :: rest) then
      match (c :: rest).drop keyLit.length with
      | a :: after =>
        if isDotChar a then some ((a :: after).takeWhile isDotChar)
        else findKeyMatch rest
      | [] => findKeyMatch rest
    else findKeyMatch rest

/-- The `hasValidKey` test of the production get-env-config handler:
a regex match whose captured group has a non-empty trim and contains
neither `your_` nor `placeholder` (checked on the raw group). -/
def hasValidKey (content : List Char) : Bool :=
  match findKeyMatch content with
  | none => false
  | some v =>
    !(trimList v).isEmpty &&
    !(listContains v "your_".toList) &&
    !(listContains v "placeholder".toList)

/-- Response of GET /api/get-env-config (status plus the JSON body fields the
claims mention; the constant `path` field is omitted). -/
structure GetEnvResp where
  status : Nat
  configured : Bool
  hasPrivateKey : Bool
  errorMsg : Option String
  note : Option String
deriving DecidableEq

/-- The GET /api/get-env-config handler: reading the `.env` file either
yields its content or throws (missing/unreadable file), which the handler
catches, answering 200 in every case. -/
def getEnvConfig (env : Option (List Char)) : GetEnvResp :=
  match env with
  | none =>
    ⟨200, false, false, some "Could not read .env file",
      some "Configure via Settings if needed for your workflow"⟩
  | some content =>
    let ok := hasValidKey content
    ⟨200, ok, ok, none,
      if ok then none
      else some "No private key configured. Some workflows may work without it."⟩

/-! ### The private-key write (POST /api/set-env-config) -/

/-- Response of POST /api/set-env-config. -/
structure SetEnvResp where
  status : Nat
  success : Option Bool
  errorMsg : Option String
deriving DecidableEq

/-- Tail of the file content written on success, after the cleaned key. -/
def targetTail : List Char := "\nCRE_TARGET=staging-settings\n".toList

/-- The exact content written on a successful set-env-config:
`CRE_ETH_PRIVATE_KEY=<cleanKey>\nCRE_TARGET=staging-settings\n`. -/
def envContentFor (ck : List Char) : List Char := keyLit ++ ck ++ targetTail

/-- The POST /api/set-env-config handler.  A falsy `privateKey` is rejected
with 400; a truthy non-string makes `privateKey.replace` throw a `TypeError`
which the surrounding try/catch converts to a 500; a string is cleaned and
validated, with 400 on validation failure (file untouched) and a full
overwrite of the `.env` file on success. -/
def setEnvConfig (privateKey : JValue) (env : Option (List Char)) :
    SetEnvResp × Option (List Char) :=
  if privateKey.truthy then
    match privateKey with
    | JValue.jstr s =>
      let ck := cleanKey s
      if isHex64 ck then
        (⟨200, some true, none⟩, some (envContentFor ck))
      else
        (⟨400, none,
          some "Invalid private key format. Must be 64 hexadecimal characters."⟩, env)
    | _ => (⟨500, none, some "Failed to save configuration"⟩, env)
  else
    (⟨400, none, some "Missing privateKey"⟩, env)

/-! ### The simulation endpoint (POST /api/simulate) -/

/-- Resolved value of a successful `execAsync` call. -/
structure ExecOk where
  stdout : List Char
  stderr : List Char
deriving DecidableEq

/-- Error object of a failed `execAsync` call (non-zero exit, timeout, or
launch failure); any of the fields may be absent. -/
structure ExecFailure where
  stdout : Option (List Char)
  stderr : Option (List Char)
  message : Option (List Char)
deriving DecidableEq

/-- Response of POST /api/simulate. -/
structure SimResp where
  status : Nat
  success : Bool
  output : List Char
deriving DecidableEq

/-- The POST /api/simulate handler of the production server (it ignores the
request body entirely), as a function of the subprocess outcome. -/
def simulate (result : Except ExecFailure ExecOk) : SimResp :=
  match result with
  | Except.ok r =>
    ⟨200, true, r.stdout ++ (if r.stderr.isEmpty then [] else '\n' :: r.stderr)⟩
  | Except.error e =>
    ⟨200, false,
      e.stdout.getD [] ++ '\n' :: (e.stderr.getD [] ++ '\n' :: e.message.getD [])⟩

/-! ### Startup initialisation of the `.env` file -/

/-- JavaScript `x || d` on an optional environment variable: an absent or
empty string falls back to the default. -/
def jsOrDefault (v : Option (List Char)) (d : List Char) : List Char :=
  match v with
  | some s => if s.isEmpty then d else s
  | none => d

/-- The content `initializeEnvFile` writes when the file is absent. -/
def initialEnvContent (envKey envTarget : Option (List Char)) : List Char :=
  ("# CRE Configuration\n# Generated automatically by CREator Backend\n# Private key is optional - some simulations work without it\nCRE_ETH_PRIVATE_KEY=").toList
  ++ jsOrDefault envKey []
  ++ ("\nCRE_TARGET=").toList
  ++ jsOrDefault envTarget ("staging-settings").toList
  ++ ('\n' :: [])

/-- The startup initializer: `fs.access` succeeding (file present) leaves the
file alone; otherwise the default content is written, with the private key and
target taken from the `CRE_ETH_PRIVATE_KEY` / `CRE_TARGET` environment
variables when truthy, else the defaults (empty key, `staging-settings`). -/
def initializeEnvFile (envKey envTarget : Option (List Char))
    (file : Option (List Char)) : Option (List Char) :=
  match file with
  | some c => some c
  | none => some (initialEnvContent envKey envTarget)

/-! ### Path resolution of POST /api/write-file -/

/-- One normalisation step of `path.join` over an absolute path: empty and
`.` segments disappear, `..` removes the previous segment (or nothing at the
root), anything else is appended. -/
def normStep (acc : List (List Char)) (seg : List Char) : List (List Char) :=
  if seg = [] then acc
  else if seg = ['.'] then acc
  else if seg = ['.', '.'] then acc.dropLast
  else acc ++ [seg]

/-- `path.normalize` over the segment list of an absolute path. -/
def normalizeSegs (segs : List (List Char)) : List (List Char) :=
  segs.foldl normStep []

/-- `path.join(ORCHESTRATOR_PATH, relativePath)` of the write-file handler:
the supplied path is appended segment-wise under the (absolute) orchestrator
root and the result is normalised.  No traversal check is performed. -/
def writeFilePath (root : List (List Char)) (relativePath : List Char) :
    List (List Char) :=
  normalizeSegs (root ++ splitOnChar '/' relativePath)

/-- Segment list of the default orchestrator root used in the escape example. -/
def creRoot : List (List Char) := ["app".toList, "cre-orchestrator".toList]

/-! ### Spec-side predicates used for refinement comparisons -/

/-- The configured-predicate exactly as claim C4 words it: some line of the
file matches `CRE_ETH_PRIVATE_KEY=<value>`, the trimmed value is non-empty,
and the trimmed value contains none of the substrings `your_`,
`your-eth-private-key`, `placeholder`. -/
def configuredSpec (content : List Char) : Bool :=
  (splitOnChar '\n' content).any (fun line =>
    keyLit.isPrefixOf line &&
    !(line.drop keyLit.length).isEmpty &&
    !(trimList (line.drop keyLit.length)).isEmpty &&
    !(listContains (trimList (line.drop keyLit.length)) "your_".toList) &&
    !(listContains (trimList (line.drop keyLit.length)) "your-eth-private-key".toList) &&
    !(listContains (trimList (line.drop keyLit.length)) "placeholder".toList))

/-- Does the regex `CRE_ETH_PRIVATE_KEY=(.+)` match at position `i`? -/
def matchStartsAt (content : List Char) (i : Nat) : Bool :=
  keyLit.isPrefixOf (content.drop i) &&
  (match content.drop (i + keyLit.length) with
   | [] => false
   | a :: _ => isDotChar a)

/-- The amended configured-predicate of claim C4, worded through the first
matching position: the smallest index where the key literal is followed by at
least one non-line-terminator character yields the captured value, which must
have a non-empty trim and contain neither `your_` nor `placeholder`. -/
def configuredAmended (content : List Char) : Bool :=
  match (List.range content.length).find? (matchStartsAt content) with
  | none => false
  | some i =>
    let v := (content.drop (i + keyLit.length)).takeWhile isDotChar
    !(trimList v).isEmpty &&
    !(listContains v "your_".toList) &&
    !(listContains v "placeholder".toList)

/-- Concrete subprocess failure used by the C3 witness. -/
def execFail0 : ExecFailure :=
  ⟨some "out".toList, some "err".toList, some "Command failed".toList⟩

/-- Concrete 64-hex key (all `a`) used by witnesses. -/
def sampleKey : List Char := List.replicate 64 'a'

/-- Concrete 64-hex key (all `b`) used by witnesses. -/
def sampleKeyB : List Char := List.replicate 64 'b'

/-! ### Helper lemmas -/

theorem mem_of_isPrefixOf {l m : List Char} (h : l.isPrefixOf m = true) :
    ∀ c ∈ l, c ∈ m := by
  induction l generalizing m with
  | nil => intro c hc; cases hc
  | cons a l ih =>
    cases m with
    | nil => simp [List.isPrefixOf] at h
    | cons b m =>
      simp only [List.isPrefixOf, Bool.and_eq_true, beq_iff_eq] at h
      intro c hc
      rcases List.mem_cons.mp hc with rfl | hc
      · rw [h.1]; exact List.mem_cons_self _ _
      · exact List.mem_cons_of_mem _ (ih h.2 c hc)

theorem listContains_mem {t pat : List Char} (h : listContains t pat = true) :
    ∀ c ∈ pat, c ∈ t := by
  induction t with
  | nil =>
    cases pat with
    | nil => intro c hc; cases hc
    | cons p ps => simp [listContains] at h
  | cons b t ih =>
    rw [listContains] at h
    rcases Bool.or_eq_true _ _ |>.mp h with hp | hrec
    · exact mem_of_isPrefixOf hp
    · exact fun c hc => List.mem_cons_of_mem _ (ih hrec c hc)

theorem listContains_eq_false_of_bad (t pat : List Char) (c₀ : Char)
    (hc : c₀ ∈ pat) (hbad : isHexChar c₀ = false)
    (hall : ∀ c ∈ t, isHexChar c = true) : listContains t pat = false := by
  cases h : listContains t pat with
  | false => rfl
  | true => exact absurd (hall c₀ (listContains_mem h c₀ hc)) (by simp [hbad])

theorem not_ws_of_hex {c : Char} (h : isHexChar c = true) : isJsWs c = false := by
  cases hw : isJsWs c with
  | false => rfl
  | true =>
    exfalso
    simp only [isJsWs, Bool.or_eq_true, beq_iff_eq] at hw
    rcases hw with ((((rfl | rfl) | rfl) | rfl) | rfl) | rfl <;> exact absurd h (by decide)

theorem dot_of_hex {c : Char} (h : isHexChar c = true) : isDotChar c = true := by
  cases hd : isDotChar c with
  | true => rfl
  | false =>
    exfalso
    simp only [isDotChar, Bool.not_eq_false', Bool.or_eq_true, beq_iff_eq] at hd
    rcases hd with ((rfl | rfl) | rfl) | rfl <;> exact absurd h (by decide)

theorem dropWhile_of_none {p : Char → Bool} {L : List Char}
    (h : ∀ c ∈ L, p c = false) : L.dropWhile p = L := by
  cases L with
  | nil => rfl
  | cons a t =>
    exact List.dropWhile_cons_of_neg (by simp [h a (List.mem_cons_self a t)])

theorem trim_sandwich (wsPre s wsPost : List Char) (hne : s ≠ [])
    (hs : ∀ c ∈ s, isJsWs c = false)
    (h1 : ∀ c ∈ wsPre, isJsWs c = true) (h2 : ∀ c ∈ wsPost, isJsWs c = true) :
    trimList (wsPre ++ s ++ wsPost) = s := by
  obtain ⟨a, s', rfl⟩ := List.exists_cons_of_ne_nil hne
  unfold trimList
  rw [List.append_assoc, List.dropWhile_append_of_pos h1, List.cons_append,
    List.dropWhile_cons_of_neg (by simp [hs a (List.mem_cons_self a s')]),
    ← List.cons_append, List.reverse_append,
    List.dropWhile_append_of_pos (fun c hc => h2 c (List.mem_reverse.mp hc)),
    dropWhile_of_none (fun c hc => hs c (List.mem_reverse.mp hc)),
    List.reverse_reverse]

theorem strip0x_ne {l : List Char} (h : ∀ r, l ≠ '0' :: 'x' :: r) :
    strip0x l = l := by
  unfold strip0x
  split
  · exact absurd rfl (h _)
  · rfl

theorem isPrefixOf_append_self (l t : List Char) : l.isPrefixOf (l ++ t) = true := by
  induction l with
  | nil => simp [List.isPrefixOf]
  | cons a l ih => simp [List.isPrefixOf, ih]

/-! ### Claim C2 -/

/-- C2: a set-env-config request whose privateKey string cleans to anything
other than exactly 64 hexadecimal characters is answered with HTTP 400 and the
`.env` file state is left unchanged. -/
theorem c2_invalid_key_rejected (s : List Char) (env₀ : Option (List Char))
    (h : isHex64 (cleanKey s) = false) :
    (setEnvConfig (JValue.jstr s) env₀).1.status = 400 ∧
    (setEnvConfig (JValue.jstr s) env₀).2 = env₀ := by
  cases s with
  | nil => exact ⟨rfl, rfl⟩
  | cons a t => constructor <;> simp [setEnvConfig, JValue.truthy, h]

/-- C2 witness: the concrete key `abc` is rejected with 400, file untouched. -/
theorem c2_invalid_key_rejected_witness :
    isHex64 (cleanKey "abc".toList) = false ∧
    (setEnvConfig (JValue.jstr "abc".toList) (some "OLD".toList)).1.status = 400 ∧
    (setEnvConfig (JValue.jstr "abc".toList) (some "OLD".toList)).2 = some "OLD".toList :=
  ⟨by decide,
    (c2_invalid_key_rejected "abc".toList (some "OLD".toList) (by decide)).1,
    (c2_invalid_key_rejected "abc".toList (some "OLD".toList) (by decide)).2⟩

/-! ### Claim C3 -/

/-- C3: every simulate response has HTTP status 200; when the subprocess fails
(non-zero exit, timeout, launch failure) the response still carries success
false with the failure details (stdout, stderr, message) concatenated into
`output`, never an HTTP error status. -/
theorem c3_simulate_always_200 (r : Except ExecFailure ExecOk) :
    (simulate r).status = 200 ∧
    ∀ e, r = Except.error e →
      (simulate r).success = false ∧
      (simulate r).output =
        e.stdout.getD [] ++ '\n' :: (e.stderr.getD [] ++ '\n' :: e.message.getD []) := by
  cases r with
  | ok k => exact ⟨rfl, fun e he => by cases he⟩
  | error e => exact ⟨rfl, fun e' he => by cases he; exact ⟨rfl, rfl⟩⟩

/-- C3 witness: a concrete failing execution yields 200, success false, and
the concatenated diagnostics in output. -/
theorem c3_simulate_always_200_witness :
    (simulate (Except.error execFail0)).status = 200 ∧
    (simulate (Except.error execFail0)).success = false ∧
    (simulate (Except.error execFail0)).output = "out\nerr\nCommand failed".toList := by
  have h := c3_simulate_always_200 (Except.error execFail0)
  exact ⟨h.1, (h.2 execFail0 rfl).1, (h.2 execFail0 rfl).2.trans rfl⟩

/-! ### Claim C5 -/

/-- C5: when the `.env` file is missing or unreadable, the status read does
not throw and answers HTTP 200 with configured false plus a diagnostic
error field. -/
theorem c5_missing_env_soft :
    (getEnvConfig none).status = 200 ∧
    (getEnvConfig none).configured = false ∧
    (getEnvConfig none).errorMsg = some "Could not read .env file" :=
  ⟨rfl, rfl, rfl⟩

/-! ### Claim C6 -/

/-- C6: every successful set-env-config overwrites the `.env` file with
exactly the two lines `CRE_ETH_PRIVATE_KEY=<cleanedKey>` and
`CRE_TARGET=staging-settings`, independent of the previous file state. -/
theorem c6_success_overwrites (k : List Char) (env₀ : Option (List Char))
    (h : isHex64 (cleanKey k) = true) :
    (setEnvConfig (JValue.jstr k) env₀).1.status = 200 ∧
    (setEnvConfig (JValue.jstr k) env₀).2 =
      some ("CRE_ETH_PRIVATE_KEY=".toList ++ cleanKey k
        ++ "\nCRE_TARGET=staging-settings\n".toList) := by
  cases k with
  | nil => exact absurd h (by decide)
  | cons a t =>
    constructor <;>
      simp [setEnvConfig, JValue.truthy, h, envContentFor, keyLit, targetTail]

/-- C6 witness: a concrete valid key overwrites the file with exactly the two
expected lines even though the previous content was unrelated. -/
theorem c6_success_overwrites_witness :
    isHex64 (cleanKey sampleKeyB) = true ∧
    (setEnvConfig (JValue.jstr sampleKeyB) (some "UNRELATED=1\n".toList)).1.status = 200 ∧
    (setEnvConfig (JValue.jstr sampleKeyB) (some "UNRELATED=1\n".toList)).2 =
      some ("CRE_ETH_PRIVATE_KEY=".toList ++ cleanKey sampleKeyB
        ++ "\nCRE_TARGET=staging-settings\n".toList) :=
  ⟨by decide,
    (c6_success_overwrites sampleKeyB (some "UNRELATED=1\n".toList) (by decide)).1,
    (c6_success_overwrites sampleKeyB (some "UNRELATED=1\n".toList) (by decide)).2⟩

/-! ### Claim C8 -/

/-- C8: the startup initializer never overwrites an existing `.env` file and
is idempotent; when the file is absent it creates it from the
environment-variable overrides, with the defaults giving an empty private key
and target `staging-settings`. -/
theorem c8_initialize_env (ek et f : Option (List Char)) :
    (∀ c, f = some c → initializeEnvFile ek et f = some c) ∧
    (f = none → initializeEnvFile ek et f = some (initialEnvContent ek et)) ∧
    initializeEnvFile ek et (initializeEnvFile ek et f) = initializeEnvFile ek et f ∧
    initialEnvContent none none =
      ("# CRE Configuration\n# Generated automatically by CREator Backend\n# Private key is optional - some simulations work without it\nCRE_ETH_PRIVATE_KEY=\nCRE_TARGET=staging-settings\n").toList := by
  refine ⟨?_, ?_, ?_, rfl⟩
  · intro c hc; cases hc; rfl
  · intro hc; cases hc; rfl
  · cases f <;> rfl

/-- C8 witness: with no overrides, an existing file is kept verbatim and an
absent file is created with the default content. -/
theorem c8_initialize_env_witness :
    initializeEnvFile none none (some "KEEP=me\n".toList) = some "KEEP=me\n".toList ∧
    initializeEnvFile none none none = some (initialEnvContent none none) :=
  ⟨(c8_initialize_env none none (some "KEEP=me\n".toList)).1 "KEEP=me\n".toList rfl,
    (c8_initialize_env none none none).2.1 rfl⟩

/-! ### Claim C9 -/

/-- C9: a truthy non-string privateKey (for example a JSON number) makes the
handler throw inside the try block (`.replace` is not a function), which is
caught and answered as 500 `Failed to save configuration`, not as a 400
validation error; the file is untouched. -/
theorem c9_nonstring_500 (v : JValue) (env₀ : Option (List Char))
    (ht : v.truthy = true) (hn : ∀ s, v ≠ JValue.jstr s) :
    (setEnvConfig v env₀).1.status = 500 ∧
    (setEnvConfig v env₀).1.errorMsg = some "Failed to save configuration" ∧
    (setEnvConfig v env₀).2 = env₀ := by
  cases v with
  | undef => cases ht
  | jnull => cases ht
  | jstr s => exact absurd rfl (hn s)
  | jnum n => refine ⟨?_, ?_, ?_⟩ <;> simp [setEnvConfig, ht]
  | jbool b => refine ⟨?_, ?_, ?_⟩ <;> simp [setEnvConfig, ht]

/-- C9 witness: the JSON number 7 as privateKey yields a 500 with the fixed
error message and leaves the file unchanged. -/
theorem c9_nonstring_500_witness :
    (JValue.jnum 7).truthy = true ∧
    (setEnvConfig (JValue.jnum 7) (some "OLD".toList)).1.status = 500 ∧
    (setEnvConfig (JValue.jnum 7) (some "OLD".toList)).1.errorMsg =
      some "Failed to save configuration" ∧
    (setEnvConfig (JValue.jnum 7) (some "OLD".toList)).2 = some "OLD".toList := by
  have h := c9_nonstring_500 (JValue.jnum 7) (some "OLD".toList) (by decide)
    (fun s hs => JValue.noConfusion hs)
  exact ⟨by decide, h.1, h.2.1, h.2.2⟩

/-! ### Facts about 64-hex keys and key cleaning -/

theorem hex64_facts {s : List Char} (hs : isHex64 s = true) :
    s.length = 64 ∧ (∀ c ∈ s, isHexChar c = true) ∧ s ≠ [] := by
  have hs' : ((s.length == 64) && s.all isHexChar) = true := hs
  have h := (Bool.and_eq_true _ _).mp hs'
  have hlen : s.length = 64 := by simpa using h.1
  refine ⟨hlen, List.all_eq_true.mp h.2, ?_⟩
  intro hnil
  rw [hnil] at hlen
  simp at hlen

theorem cleanKey_of_sandwich (s wsPre wsPost : List Char)
    (hs : isHex64 s = true)
    (hpre : ∀ c ∈ wsPre, isJsWs c = true) (hpost : ∀ c ∈ wsPost, isJsWs c = true) :
    cleanKey (wsPre ++ s ++ wsPost) = s := by
  obtain ⟨hlen, hall, hne⟩ := hex64_facts hs
  have hnws : ∀ c ∈ s, isJsWs c = false := fun c hc => not_ws_of_hex (hall c hc)
  unfold cleanKey
  rw [strip0x_ne, trim_sandwich wsPre s wsPost hne hnws hpre hpost]
  intro r hr
  cases wsPre with
  | nil =>
    simp only [List.nil_append] at hr
    obtain ⟨a, s1, rfl⟩ := List.exists_cons_of_ne_nil hne
    cases s1 with
    | nil => simp at hlen
    | cons b s2 =>
      rw [List.cons_append, List.cons_append] at hr
      injection hr with h1 hr2
      injection hr2 with h2 _
      have hb := hall b (List.mem_cons_of_mem _ (List.mem_cons_self _ _))
      rw [h2] at hb
      exact absurd hb (by decide)
  | cons w ws =>
    rw [List.cons_append, List.cons_append] at hr
    injection hr with h1 _
    have hw := hpre w (List.mem_cons_self _ _)
    rw [h1] at hw
    exact absurd hw (by decide)

theorem cleanKey_with_0x (s wsPost : List Char) (hs : isHex64 s = true)
    (hpost : ∀ c ∈ wsPost, isJsWs c = true) :
    cleanKey ('0' :: 'x' :: (s ++ wsPost)) = s := by
  obtain ⟨hlen, hall, hne⟩ := hex64_facts hs
  have hnws : ∀ c ∈ s, isJsWs c = false := fun c hc => not_ws_of_hex (hall c hc)
  unfold cleanKey
  rw [show strip0x ('0' :: 'x' :: (s ++ wsPost)) = s ++ wsPost from rfl]
  have h := trim_sandwich [] s wsPost hne hnws
    (fun c hc => absurd hc (List.not_mem_nil c)) hpost
  simpa using h

/-- Reduction of the handler in the valid-key case. -/
theorem setEnvConfig_success (k : List Char) (env₀ : Option (List Char))
    (hvalid : isHex64 (cleanKey k) = true) :
    setEnvConfig (JValue.jstr k) env₀ =
      (⟨200, some true, none⟩, some (envContentFor (cleanKey k))) := by
  cases k with
  | nil => exact absurd hvalid (by decide)
  | cons a t => simp [setEnvConfig, JValue.truthy, hvalid]

/-! ### Characterisation of the regex scan -/

theorem takeWhile_all_stop {p : Char → Bool} (v : List Char) (b : Char) (T : List Char)
    (hv : ∀ c ∈ v, p c = true) (hb : p b = false) :
    (v ++ b :: T).takeWhile p = v := by
  rw [List.takeWhile_append_of_pos hv, List.takeWhile_cons_of_neg (by simp [hb]),
    List.append_nil]

theorem findKeyMatch_cons (c : Char) (rest : List Char) :
    findKeyMatch (c :: rest) =
      if matchStartsAt (c :: rest) 0 then
        some (((c :: rest).drop keyLit.length).takeWhile isDotChar)
      else findKeyMatch rest := by
  simp only [findKeyMatch, matchStartsAt, List.drop_zero, Nat.zero_add]
  cases hp : keyLit.isPrefixOf (c :: rest) with
  | false => simp
  | true =>
    simp only [Bool.true_and]
    cases hD : (c :: rest).drop keyLit.length with
    | nil => simp
    | cons a after =>
      cases hdot : isDotChar a with
      | false => simp [hdot]
      | true => simp [hdot]

theorem matchStartsAt_succ (c : Char) (rest : List Char) (i : Nat) :
    matchStartsAt (c :: rest) (i + 1) = matchStartsAt rest i := by
  simp only [matchStartsAt, List.drop_succ_cons]
  have h : i + 1 + keyLit.length = (i + keyLit.length) + 1 := by omega
  rw [h, List.drop_succ_cons]

theorem findq_congr {p q : Nat → Bool} (l : List Nat) (h : ∀ a ∈ l, p a = q a) :
    l.find? p = l.find? q := by
  induction l with
  | nil => rfl
  | cons a l ih =>
    have ha := h a (List.mem_cons_self a l)
    cases hq : q a with
    | true => rw [List.find?_cons_of_pos _ (ha.trans hq), List.find?_cons_of_pos _ hq]
    | false =>
      rw [List.find?_cons_of_neg _ (by simp [ha, hq]),
        List.find?_cons_of_neg _ (by simp [hq])]
      exact ih (fun b hb => h b (List.mem_cons_of_mem _ hb))

/-- The recursive regex scan agrees with the first-matching-index view. -/
theorem findKeyMatch_eq (content : List Char) :
    findKeyMatch content =
      ((List.range content.length).find? (matchStartsAt content)).map
        (fun i => (content.drop (i + keyLit.length)).takeWhile isDotChar) := by
  induction content with
  | nil => rfl
  | cons c rest ih =>
    rw [findKeyMatch_cons, List.length_cons, List.range_succ_eq_map]
    cases h0 : matchStartsAt (c :: rest) 0 with
    | true =>
      rw [if_pos rfl, List.find?_cons_of_pos _ h0]
      simp
    | false =>
      rw [if_neg (by simp), List.find?_cons_of_neg _ (by simp [h0]),
        List.find?_map, ih]
      have hcong :
          List.find? (matchStartsAt (c :: rest) ∘ Nat.succ) (List.range rest.length)
            = List.find? (matchStartsAt rest) (List.range rest.length) :=
        findq_congr _ (fun a _ => matchStartsAt_succ c rest a)
      rw [hcong, Option.map_map]
      cases hF : (List.range rest.length).find? (matchStartsAt rest) with
      | none => rfl
      | some i =>
        simp only [Option.map_some', Function.comp]
        have h2 : (c :: rest).drop (i + 1 + keyLit.length) =
            rest.drop (i + keyLit.length) := by
          rw [show i + 1 + keyLit.length = (i + keyLit.length) + 1 from by omega,
            List.drop_succ_cons]
        rw [h2]

/-- A file of the shape `CRE_ETH_PRIVATE_KEY=<v>\n...` matches with group `v`. -/
theorem findKeyMatch_at_head (v T : List Char) (hv : v ≠ [])
    (hdot : ∀ c ∈ v, isDotChar c = true) :
    findKeyMatch (keyLit ++ (v ++ '\n' :: T)) = some v := by
  obtain ⟨a, v', rfl⟩ := List.exists_cons_of_ne_nil hv
  have hc : keyLit ++ ((a :: v') ++ '\n' :: T) =
      'C' :: ("RE_ETH_PRIVATE_KEY=".toList ++ ((a :: v') ++ '\n' :: T)) := rfl
  have hdrop :
      ('C' :: ("RE_ETH_PRIVATE_KEY=".toList ++ ((a :: v') ++ '\n' :: T))).drop keyLit.length
        = (a :: v') ++ '\n' :: T := by
    rw [← hc]
    exact List.drop_left _ _
  have h0 : matchStartsAt
      ('C' :: ("RE_ETH_PRIVATE_KEY=".toList ++ ((a :: v') ++ '\n' :: T))) 0 = true := by
    unfold matchStartsAt
    rw [List.drop_zero, Nat.zero_add, hdrop, ← hc, isPrefixOf_append_self,
      List.cons_append]
    simp [hdot a (List.mem_cons_self a v')]
  rw [hc, findKeyMatch_cons, if_pos h0, hdrop,
    takeWhile_all_stop (a :: v') '\n' T hdot (by decide)]

/-- The content written by a successful set-env-config passes the
configured test of the status read. -/
theorem hasValidKey_envContentFor {s : List Char} (hs : isHex64 s = true) :
    hasValidKey (envContentFor s) = true := by
  obtain ⟨hlen, hall, hne⟩ := hex64_facts hs
  have hdot : ∀ c ∈ s, isDotChar c = true := fun c hc => dot_of_hex (hall c hc)
  have he : envContentFor s =
      keyLit ++ (s ++ '\n' :: "CRE_TARGET=staging-settings\n".toList) := by
    unfold envContentFor
    rw [List.append_assoc]
    rfl
  rw [he]
  unfold hasValidKey
  rw [findKeyMatch_at_head s _ hne hdot]
  have htrim : trimList s = s := by
    have h := trim_sandwich [] s [] hne (fun c hc => not_ws_of_hex (hall c hc))
      (fun c hc => absurd hc (List.not_mem_nil c))
      (fun c hc => absurd hc (List.not_mem_nil c))
    simpa using h
  show (!(trimList s).isEmpty && !(listContains s "your_".toList)
    && !(listContains s "placeholder".toList)) = true
  obtain ⟨c0, s0, rfl⟩ := List.exists_cons_of_ne_nil hne
  have h1 : listContains (c0 :: s0) "your_".toList = false :=
    listContains_eq_false_of_bad _ _ '_' (by decide) (by decide) hall
  have h2 : listContains (c0 :: s0) "placeholder".toList = false :=
    listContains_eq_false_of_bad _ _ 'l' (by decide) (by decide) hall
  rw [htrim, h1, h2]
  simp

/-! ### Claim C1 -/

/-- C1: for every privateKey that is a 64-hex string, optionally prefixed with
`0x`, set-env-config answers 200 with success true and an immediately
subsequent get-env-config (no intervening write) reports configured true,
whatever the previous file state was. -/
theorem c1_roundtrip (s k : List Char) (env₀ : Option (List Char))
    (hs : isHex64 s = true) (hk : k = s ∨ k = '0' :: 'x' :: s) :
    (setEnvConfig (JValue.jstr k) env₀).1.status = 200 ∧
    (setEnvConfig (JValue.jstr k) env₀).1.success = some true ∧
    (getEnvConfig (setEnvConfig (JValue.jstr k) env₀).2).configured = true := by
  have hclean : cleanKey k = s := by
    rcases hk with hk1 | hk1
    · rw [hk1]
      have h := cleanKey_of_sandwich s [] [] hs
        (fun c hc => absurd hc (List.not_mem_nil c))
        (fun c hc => absurd hc (List.not_mem_nil c))
      simpa using h
    · rw [hk1]
      have h := cleanKey_with_0x s [] hs (fun c hc => absurd hc (List.not_mem_nil c))
      simpa using h
  rw [setEnvConfig_success k env₀ (by rw [hclean]; exact hs), hclean]
  exact ⟨rfl, rfl, hasValidKey_envContentFor hs⟩

/-- C1 witness: the key `0x` followed by 64 `a` characters round-trips. -/
theorem c1_roundtrip_witness :
    isHex64 sampleKey = true ∧
    (setEnvConfig (JValue.jstr ('0' :: 'x' :: sampleKey)) none).1.status = 200 ∧
    (setEnvConfig (JValue.jstr ('0' :: 'x' :: sampleKey)) none).1.success = some true ∧
    (getEnvConfig (setEnvConfig (JValue.jstr ('0' :: 'x' :: sampleKey)) none).2).configured
      = true := by
  have h := c1_roundtrip sampleKey ('0' :: 'x' :: sampleKey) none (by decide) (Or.inr rfl)
  exact ⟨by decide, h.1, h.2.1, h.2.2⟩

/-! ### Claim C7 -/

/-- C7 counterexample: the key consisting of a leading space, then `0x`, then
64 hex characters is exactly of the claimed form (surrounding whitespace, then
an optional `0x` prefix, then 64 hex characters), yet the handler rejects it
with 400 because the code removes the `0x` prefix before trimming. -/
theorem c7_counterexample :
    isHex64 sampleKey = true ∧
    isJsWs ' ' = true ∧
    (setEnvConfig (JValue.jstr (' ' :: '0' :: 'x' :: sampleKey)) (some "OLD".toList)).1.status
      = 400 ∧
    (setEnvConfig (JValue.jstr (' ' :: '0' :: 'x' :: sampleKey)) (some "OLD".toList)).1.success
      = none := by
  refine ⟨by decide, by decide, ?_, ?_⟩ <;> decide

/-- C7 amended: the cleaning removes a literal `0x` prefix first and trims
whitespace second, so the write succeeds storing the cleaned key exactly when
the supplied key is either `0x` immediately at the start followed by the 64
hex characters and optional trailing whitespace, or the bare 64 hex characters
with optional whitespace on both sides; whitespace before the `0x` prefix is
rejected. -/
theorem c7_cleaning (s wsPre wsPost k : List Char) (env₀ : Option (List Char))
    (hs : isHex64 s = true)
    (hpre : ∀ c ∈ wsPre, isJsWs c = true) (hpost : ∀ c ∈ wsPost, isJsWs c = true)
    (hk : k = '0' :: 'x' :: (s ++ wsPost) ∨ k = wsPre ++ s ++ wsPost) :
    cleanKey k = s ∧
    (setEnvConfig (JValue.jstr k) env₀).1.status = 200 ∧
    (setEnvConfig (JValue.jstr k) env₀).1.success = some true ∧
    (setEnvConfig (JValue.jstr k) env₀).2 = some (envContentFor s) := by
  rcases hk with rfl | rfl
  · have hclean := cleanKey_with_0x s wsPost hs hpost
    rw [setEnvConfig_success _ env₀ (by rw [hclean]; exact hs), hclean]
    exact ⟨rfl, rfl, rfl, rfl⟩
  · have hclean := cleanKey_of_sandwich s wsPre wsPost hs hpre hpost
    rw [setEnvConfig_success _ env₀ (by rw [hclean]; exact hs), hclean]
    exact ⟨rfl, rfl, rfl, rfl⟩

/-- C7 witness: `0x` plus 64 `a` plus a trailing space succeeds and stores the
bare 64-character key. -/
theorem c7_cleaning_witness :
    isHex64 sampleKey = true ∧
    (∀ c ∈ [' '], isJsWs c = true) ∧
    cleanKey ('0' :: 'x' :: (sampleKey ++ [' '])) = sampleKey ∧
    (setEnvConfig (JValue.jstr ('0' :: 'x' :: (sampleKey ++ [' ']))) none).1.status = 200 ∧
    (setEnvConfig (JValue.jstr ('0' :: 'x' :: (sampleKey ++ [' ']))) none).2
      = some (envContentFor sampleKey) := by
  have h := c7_cleaning sampleKey [] [' '] ('0' :: 'x' :: (sampleKey ++ [' '])) none
    (by decide) (fun c hc => absurd hc (List.not_mem_nil c)) (by decide) (Or.inl rfl)
  exact ⟨by decide, by decide, h.1, h.2.1, h.2.2.2⟩

/-! ### Claim C4 -/

/-- C4 counterexample: on the file `CRE_ETH_PRIVATE_KEY=your-eth-private-key`
the handler reports configured true (it never screens the substring
`your-eth-private-key`), while the predicate claimed by C4 says not
configured; so the claimed if-and-only-if is false at this input. -/
theorem c4_counterexample :
    (getEnvConfig (some "CRE_ETH_PRIVATE_KEY=your-eth-private-key\n".toList)).configured
      = true ∧
    configuredSpec "CRE_ETH_PRIVATE_KEY=your-eth-private-key\n".toList = false := by
  constructor <;> decide

/-- C4 amended: get-env-config reports configured exactly when the first
position of the file where `CRE_ETH_PRIVATE_KEY=` is followed by at least one
non-line-terminator character captures a value (the maximal such run) whose
trim is non-empty and which contains neither `your_` nor `placeholder`;
the substring `your-eth-private-key` is not screened, and the match need not
start at a line boundary. -/
theorem c4_amended_configured (content : List Char) :
    (getEnvConfig (some content)).configured = configuredAmended content := by
  show hasValidKey content = configuredAmended content
  unfold hasValidKey configuredAmended
  rw [findKeyMatch_eq content]
  cases hF : (List.range content.length).find? (matchStartsAt content) with
  | none => rfl
  | some i => rfl

/-! ### Claim C10 -/

theorem foldl_normStep_plain (root : List (List Char))
    (hroot : ∀ s ∈ root, s ≠ [] ∧ s ≠ ['.'] ∧ s ≠ ['.', '.']) :
    ∀ acc, List.foldl normStep acc root = acc ++ root := by
  induction root with
  | nil => intro acc; simp
  | cons r rs ih =>
    intro acc
    obtain ⟨h1, h2, h3⟩ := hroot r (List.mem_cons_self _ _)
    rw [List.foldl_cons, show normStep acc r = acc ++ [r] from by simp [normStep, h1, h2, h3],
      ih (fun x hx => hroot x (List.mem_cons_of_mem _ hx))]
    simp

theorem foldl_normStep_extends (X : List (List Char))
    (hX : ∀ s ∈ X, s ≠ ['.', '.']) :
    ∀ A, ∃ t, List.foldl normStep A X = A ++ t := by
  induction X with
  | nil => intro A; exact ⟨[], by simp⟩
  | cons x xs ih =>
    intro A
    have hx := hX x (List.mem_cons_self _ _)
    obtain ⟨t, ht⟩ := ih (fun y hy => hX y (List.mem_cons_of_mem _ hy)) (normStep A x)
    have hstep : normStep A x = A ∨ normStep A x = A ++ [x] := by
      unfold normStep
      by_cases hc1 : x = []
      · simp [hc1]
      · by_cases hc2 : x = ['.']
        · simp [hc1, hc2]
        · simp [hc1, hc2, hx]
    rw [List.foldl_cons]
    rcases hstep with h | h
    · exact ⟨t, by rw [ht, h]⟩
    · exact ⟨x :: t, by rw [ht, h, List.append_assoc]; rfl⟩

/-- C10: the write-file target is resolved by joining the supplied path under
the orchestrator root with no traversal check: a supplied path with `..`
segments can land outside the root (shown on a concrete input), while every
supplied path without `..` segments stays confined under the root. -/
theorem c10_write_file_traversal :
    (¬ ∃ t, writeFilePath creRoot "../evil.txt".toList = creRoot ++ t) ∧
    (∀ root rel, (∀ s ∈ root, s ≠ [] ∧ s ≠ ['.'] ∧ s ≠ ['.', '.']) →
      (∀ s ∈ splitOnChar '/' rel, s ≠ ['.', '.']) →
      ∃ t, writeFilePath root rel = root ++ t) := by
  constructor
  · rintro ⟨t, ht⟩
    rw [show writeFilePath creRoot "../evil.txt".toList
        = ["app".toList, "evil.txt".toList] from by decide,
      show creRoot ++ t = "app".toList :: "cre-orchestrator".toList :: t from rfl] at ht
    injection ht with h1 h2
    injection h2 with h3 _
    exact absurd h3 (by decide)
  · intro root rel hroot hrel
    unfold writeFilePath normalizeSegs
    rw [List.foldl_append, foldl_normStep_plain root hroot [], List.nil_append]
    exact foldl_normStep_extends (splitOnChar '/' rel) hrel root

/-- C10 witness: a traversal-free path stays confined under the root. -/
theorem c10_write_file_traversal_witness :
    (∀ s ∈ creRoot, s ≠ [] ∧ s ≠ ['.'] ∧ s ≠ ['.', '.']) ∧
    (∀ s ∈ splitOnChar '/' "workflows/main.ts".toList, s ≠ ['.', '.']) ∧
    ∃ t, writeFilePath creRoot "workflows/main.ts".toList = creRoot ++ t :=
  ⟨by decide, by decide,
    c10_write_file_traversal.2 creRoot "workflows/main.ts".toList (by decide) (by decide)⟩

end CREator
